import Mathlib

/-!
Verification development for the kb-crawler repository.

The Go sources are shallowly embedded: HTML/XML documents are modelled as a
tree type (`Node`), Go string helpers are re-implemented over character
lists so that every definition evaluates by kernel reduction, store calls
(`CreateCategory` / `CreateArticle`) that can fail are modelled by a boolean
success oracle keyed by the data being persisted, `uuid.New()` is modelled by
a fresh-`Nat` counter, and `time.Now()` / `CURRENT_TIMESTAMP` by explicit
`Nat` parameters.  The embedded functions follow the newest version of the
crawler sources (`internal/crawler/collector.go` as reproduced in the
repository snapshot, together with `internal/crawler/parser.go`,
`internal/api/handlers.go`, `internal/storage/sqlite.go` /
`internal/storage/postgres.go` and `internal/models`).
-/
/-! ## Go string helpers

`strings.TrimSpace`, `strings.Split`, `strings.Fields`, `strings.ToLower`
and `strings.Join` re-implemented over `List Char`.  (Go trims the Unicode
white-space class; the embedding uses Lean's `Char.isWhitespace`, which
covers the ASCII white-space characters appearing in the documents at
issue.) -/
/-- Model of Go `strings.TrimSpace`. -/
def goTrim (s : String) : String :=
  String.mk (((s.data.dropWhile Char.isWhitespace).reverse.dropWhile
    Char.isWhitespace).reverse)

/-- Split a character list at every character satisfying `p`
(separators are consumed; empty segments are kept, as in Go
`strings.Split`). -/
def splitCharsBy (p : Char → Bool) : List Char → List (List Char)
  | [] => [[]]
  | c :: cs =>
    let r := splitCharsBy p cs
    if p c then [] :: r
    else
      match r with
      | [] => [[c]]
      | g :: gs => (c :: g) :: gs

/-- Model of Go `strings.Split(s, ",")`. -/
def goSplitComma (s : String) : List String :=
  (splitCharsBy (fun c => c = ',') s.data).map String.mk

/-- Model of Go `strings.Fields`: white-space-separated fields, empty
fields dropped. -/
def goFields (s : String) : List String :=
  ((splitCharsBy Char.isWhitespace s.data).map String.mk).filter
    (fun x => x ≠ "")

/-- Model of Go `strings.ToLower`. -/
def goToLower (s : String) : String := String.mk (s.data.map Char.toLower)

/-- The whitespace collapse at the end of `parser.go cleanHTML`:
`strings.TrimSpace(strings.Join(strings.Fields(s), " "))`. -/
def collapseWs (s : String) : String :=
  goTrim (String.intercalate " " (goFields s))

/-! ## Document trees

HTML documents (as produced by `golang.org/x/net/html.Parse` and traversed
through goquery selections) and XML documents (as consumed by
`encoding/xml.Unmarshal`) are modelled by one tree type. -/
/-- A parsed document node: a text node, a comment node, or an element with
a tag name, an attribute list and a child list. -/
inductive Node where
  | text (s : String)
  | comment (s : String)
  | elem (tag : String) (attrs : List (String × String)) (children : List Node)

/-- The children of a node (elements only; text and comment nodes have
none). -/
def Node.childNodes : Node → List Node
  | .elem _ _ cs => cs
  | _ => []

/-- Whether the node is an element with the given tag
(goquery `Selection.Is` restricted to tag selectors). -/
def Node.isTag : Node → String → Bool
  | .elem t _ _, tag => t = tag
  | _, _ => false

/-- Attribute lookup (`golang.org/x/net/html` attribute list: first match
wins); `none` models the `exists == false` result of goquery
`Selection.Attr`. -/
def Node.attrOf : Node → String → Option String
  | .elem _ attrs _, key => (attrs.find? (fun kv => kv.1 = key)).map (fun kv => kv.2)
  | _, _ => none

/-- Concatenated text of all descendant text nodes, in document order:
goquery `Selection.Text` (comments and tags contribute nothing, and no
separators are inserted). -/
def nodeText : Node → String
  | .text s => s
  | .comment _ => ""
  | .elem _ _ cs => go cs
where go : List Node → String
  | [] => ""
  | c :: cs => nodeText c ++ go cs

/-- Pre-order (document-order) listing of a node and all of its
descendants.  Models the universe searched by goquery `Find` (whose matches
are element nodes in document order; including the root itself is harmless
because no selector used by the crawler matches the document root). -/
def allNodes : Node → List Node
  | .text s => [.text s]
  | .comment s => [.comment s]
  | .elem t a cs => .elem t a cs :: go cs
where go : List Node → List Node
  | [] => []
  | c :: cs => allNodes c ++ go cs

/-- All descendant elements with the given tag, in document order:
goquery `Find(tag)`. -/
def findTag (doc : Node) (tag : String) : List Node :=
  (allNodes doc).filter (fun n => n.isTag tag)

/-- First element with the given tag, if any: goquery `Find(tag).First()`. -/
def firstTag (doc : Node) (tag : String) : Option Node :=
  (findTag doc tag).head?

/-- Whether a node matches the attribute selector `tag[name='value']`
used through `meta[name='...']` selections. -/
def isMetaNamed (name : String) (n : Node) : Bool :=
  n.isTag "meta" && n.attrOf "name" == some name

/-- All `meta` elements whose `name` attribute equals `name`, in document
order: goquery `Find("meta[name='...']")`. -/
def findMeta (doc : Node) (name : String) : List Node :=
  (allNodes doc).filter (isMetaNamed name)

/-! ## Rendering (`golang.org/x/net/html.Render`) -/
/-- The HTML void elements, rendered without a closing tag. -/
def voidElements : List String :=
  ["area", "base", "br", "col", "embed", "hr", "img", "input", "link",
   "meta", "param", "source", "track", "wbr"]

/-- Escaping applied by `x/net/html` to text and attribute values. -/
def escapeChar (c : Char) : String :=
  if c = '&' then "&amp;"
  else if c = Char.ofNat 39 then "&#39;"
  else if c = '<' then "&lt;"
  else if c = '>' then "&gt;"
  else if c = Char.ofNat 34 then "&#34;"
  else String.singleton c

/-- Escape a whole string. -/
def escapeHtml (s : String) : String :=
  String.join (s.data.map escapeChar)

/-- Render an attribute list as `x/net/html.Render` does. -/
def renderAttrs (attrs : List (String × String)) : String :=
  attrs.foldl
    (fun acc kv => acc ++ " " ++ kv.1 ++ "=" ++ "\"" ++ escapeHtml kv.2 ++ "\"")
    ""

/-- Serialize a node back to markup: `x/net/html.Render`. -/
def render : Node → String
  | .text s => escapeHtml s
  | .comment s => "<!--" ++ s ++ "-->"
  | .elem tag attrs cs =>
    if voidElements.contains tag then
      "<" ++ tag ++ renderAttrs attrs ++ "/>"
    else
      "<" ++ tag ++ renderAttrs attrs ++ ">" ++ go cs ++ "</" ++ tag ++ ">"
where go : List Node → String
  | [] => ""
  | c :: cs => render c ++ go cs

/-! ## parser.go -/
/-- The result record of `ParseHTMLContent` (`parser.go ParsedContent`). -/
structure ParsedContent where
  Title : String
  Content : String
  Tags : List String
  Author : String
  CategoryID : String
deriving Repr, DecidableEq

/-- Model of `parser.go ExtractProductFeatureTags`: for every
`meta[name='ProductFeatureTags']` element of `e` (the `head` element handed
to the `OnHTML("head")` callback), split its `content` attribute on commas
and append every entry whose trimmed form is non-empty to the incoming
`tags` slice.  No case conversion is applied. -/
def ExtractProductFeatureTags (e : Node) (tags : List String) : List String :=
  (findMeta e "ProductFeatureTags").foldl
    (fun acc m =>
      match m.attrOf "content" with
      | some content =>
        (goSplitComma content).foldl
          (fun acc2 pftag =>
            let t := goTrim pftag
            if t ≠ "" then acc2 ++ [t] else acc2)
          acc
      | none => acc)
    tags

/-- The node-removal pass of `parser.go cleanHTML`: drop `script` and
`style` subtrees and all comment nodes, recursively. -/
def removeNodes : Node → Option Node
  | .text s => some (.text s)
  | .comment _ => none
  | .elem tag attrs cs =>
    if tag = "script" ∨ tag = "style" then none
    else some (.elem tag attrs (go cs))
where go : List Node → List Node
  | [] => []
  | c :: cs =>
    match removeNodes c with
    | some c2 => c2 :: go cs
    | none => go cs

/-- Model of `parser.go cleanHTML` applied to the inner HTML of the node
list `ns`.  The Go function re-parses the rendered fragment with
`html.Parse`, which wraps body-level content in an
`<html><head></head><body>...</body></html>` document (the embedding
performs that wrapping directly on the trees rather than round-tripping
through a string), removes `script`/`style` subtrees and comments, renders
the document back to a string, and collapses every white-space run to a
single space, trimming both ends. -/
def cleanHTML (ns : List Node) : String :=
  let doc := Node.elem "html" [] [Node.elem "head" [] [], Node.elem "body" [] ns]
  match removeNodes doc with
  | some d => collapseWs (render d)
  | none => ""

/-- Model of `parser.go ParseHTMLContent`: title from the first `title`
element, author / category-id from the last correspondingly named `meta`
element carrying a `content` attribute, tags from the comma-separated
entries of every `keywords` meta followed by every `ProductFeatureTags`
meta (each entry trimmed, empty entries dropped, lower-cased), body from
the first `article` element's contents, falling back to the `body`
element's contents, passed through `cleanHTML`. -/
def ParseHTMLContent (doc : Node) : ParsedContent :=
  let title := goTrim (match firstTag doc "title" with
    | some t => nodeText t
    | none => "")
  let author := (findMeta doc "author").foldl
    (fun acc m => match m.attrOf "content" with
      | some c => goTrim c
      | none => acc) ""
  let categoryID := (findMeta doc "category-id").foldl
    (fun acc m => match m.attrOf "content" with
      | some c => goTrim c
      | none => acc) ""
  let tagsK := (findMeta doc "keywords").foldl
    (fun acc m => match m.attrOf "content" with
      | some content =>
        (goSplitComma content).foldl
          (fun acc2 kw =>
            let t := goTrim kw
            if t ≠ "" then acc2 ++ [goToLower t] else acc2)
          acc
      | none => acc) []
  let tags := (findMeta doc "ProductFeatureTags").foldl
    (fun acc m => match m.attrOf "content" with
      | some content =>
        (goSplitComma content).foldl
          (fun acc2 pftag =>
            let t := goTrim pftag
            if t ≠ "" then acc2 ++ [goToLower t] else acc2)
          acc
      | none => acc) tagsK
  let mainNodes := match firstTag doc "article" with
    | some a => a.childNodes
    | none =>
      match firstTag doc "body" with
      | some b => b.childNodes
      | none => []
  { Title := title, Content := cleanHTML mainNodes, Tags := tags,
    Author := author, CategoryID := categoryID }

/-! ## Data model (`internal/models`) -/
/-- `models.Category` with `uuid.UUID` modelled as `Nat` (`uuid.New()` is a
fresh counter value) and timestamps elided (they never influence control
flow). -/
structure Category where
  ID : Nat
  Name : String
  ParentID : Option Nat
  Description : String
deriving Repr, DecidableEq

/-- The metadata object marshalled into the article's `Metadata` JSON blob
by the page handler. -/
structure ArticleMetadata where
  categoryPath : List String
  fullCategoryString : String
  url : String
  metaTags : List String
deriving Repr, DecidableEq

/-- `models.Article` with ids and timestamps as `Nat`. -/
structure Article where
  ID : Nat
  CategoryID : Nat
  Name : String
  Body : String
  URL : String
  Tags : List String
  Author : String
  Metadata : Option ArticleMetadata
  CreatedAt : Nat
  UpdatedAt : Nat
deriving Repr, DecidableEq

/-! ## CategoryStructure (collector.go)

The Go `CategoryStructure` is a mutex-guarded `map[string]*models.Category`.
It is modelled as an association list where the most recent write shadows
earlier ones, matching the map's last-write-wins semantics. -/
/-- A category index: category path string to category record. -/
def CategoryIndex := List (String × Category)

/-- `CategoryStructure.AddCategory`: map write (a later write to the same
path wins on lookup). -/
def AddCategory (cs : CategoryIndex) (path : String) (cat : Category) :
    CategoryIndex :=
  (path, cat) :: cs

/-- `CategoryStructure.GetCategory`: map lookup; `none` models
`exists == false`. -/
def GetCategory (cs : CategoryIndex) (path : String) : Option Category :=
  (List.find? (fun pc => pc.1 = path) cs).map (fun pc => pc.2)

/-! ## MapCategoryStructure (collector.go) -/
/-- Whether a node is a list item: goquery `parent.Is("li")`. -/
def isLi (n : Node) : Bool := n.isTag "li"

/-- Document-order listing of every `li` descendant of a node, each paired
with its chain of ancestors inside the tree, innermost first.  Models the
`e.ForEach("li", ...)` iteration of `MapCategoryStructure` together with
the `current.Parent()` walk available to each callback (ancestors above
the navigation root are outside the model; none of them is an `li` in the
documents at issue). -/
def liItemsFrom : Node → List Node → List (List Node × Node)
  | .text _, _ => []
  | .comment _, _ => []
  | .elem t a cs, anc =>
    let self := Node.elem t a cs
    let here := if t = "li" then [(anc, self)] else []
    here ++ go cs (self :: anc)
where go : List Node → List Node → List (List Node × Node)
  | [], _ => []
  | c :: cs, anc => liItemsFrom c anc ++ go cs anc

/-- All `li` items of the navigation element, with ancestor chains. -/
def liItems (nav : Node) : List (List Node × Node) := liItemsFrom nav []

/-- The category-path construction of `MapCategoryStructure` for one list
item: start from `[defaultCategory]`, walk the ancestors from innermost to
outermost and prepend the trimmed text of every ancestor that is itself a
non-empty `li`, then append the item's own text. -/
def buildPathParts (defaultCategory : String) (anc : List Node)
    (text : String) : List String :=
  let withParents := anc.foldl
    (fun pathParts parent =>
      if isLi parent then
        let parentText := goTrim (nodeText parent)
        if parentText ≠ "" then parentText :: pathParts else pathParts
      else pathParts)
    [defaultCategory]
  withParents ++ [text]

/-- Mapping state: the index under construction and the next fresh
category id. -/
structure MapState where
  cs : CategoryIndex
  nextId : Nat

/-- One iteration of the `ForEach("li", ...)` callback in
`MapCategoryStructure`: skip items with empty trimmed text, build the
colon-joined category path, create the category record (parent = root id),
persist it through the store — a failed `CreateCategory` (the `store`
oracle returns `false` for the path) skips the registration — and
otherwise register it in the index. -/
def mapStep (store : String → Bool) (defaultCategory : String)
    (rootId : Nat) (st : MapState) (item : List Node × Node) : MapState :=
  let text := goTrim (nodeText item.2)
  if text = "" then st
  else
    let pathParts := buildPathParts defaultCategory item.1 text
    let categoryPath := String.intercalate ":" pathParts
    let cat : Category :=
      { ID := st.nextId, Name := text, ParentID := some rootId,
        Description := "Category: " ++ categoryPath }
    if store categoryPath then
      { cs := AddCategory st.cs categoryPath cat, nextId := st.nextId + 1 }
    else
      { cs := st.cs, nextId := st.nextId + 1 }

/-- Model of `collector.go MapCategoryStructure`: create and persist the
root category named after the default category (a store failure there
aborts with an error, modelled by `none`), register it under the
single-element path, then process every `li` of the navigation markup in
document order.  The `store` oracle models `store.CreateCategory`
success keyed by the category path being persisted. -/
def MapCategoryStructure (store : String → Bool) (defaultCategory : String)
    (nav : Node) : Option CategoryIndex :=
  let rootCat : Category :=
    { ID := 0, Name := defaultCategory, ParentID := none,
      Description := "Root category" }
  if store defaultCategory then
    some (((liItems nav).foldl (mapStep store defaultCategory 0)
      { cs := AddCategory [] defaultCategory rootCat, nextId := 1 }).cs)
  else none

/-! ## Page handler (collector.go setupHandlers) -/
/-- The category-path accumulation of the content handler: start from the
default category and append the trimmed text of every element matched by
the navigation selectors (`.sidenav li.is-selected`, `.breadcrumbs li`,
`.navigation .selected`, `nav .mc-breadcrumb li`), in match order, skipping
empty texts.  The selector machinery itself is outside the embedding: the
handler receives the matched texts as `navTexts`. -/
def pageCategoryPath (defaultCategory : String) (navTexts : List String) :
    List String :=
  navTexts.foldl
    (fun acc s =>
      let t := goTrim s
      if t ≠ "" then acc ++ [t] else acc)
    [defaultCategory]

/-- The category lookup of the content handler: the derived path first,
falling back to the default-category root entry. -/
def resolvePageCategory (cs : CategoryIndex) (defaultCategory : String)
    (categoryString : String) : Option Category :=
  match GetCategory cs categoryString with
  | some cat => some cat
  | none => GetCategory cs defaultCategory

/-- Model of the body of the content-page handler registered by
`setupHandlers` (the `OnHTML` callback for the main-content selectors),
composed with the `OnHTML("head")` callback that runs first on the same
response and stashes the `ProductFeatureTags` into the request context.
Returns the article handed to `store.CreateArticle`, or `none` when the
handler returns without persisting anything.  `id` and `now` stand for
`uuid.New()` and `time.Now()`. -/
def processPage (cs : CategoryIndex) (defaultCategory : String) (doc : Node)
    (navTexts : List String) (url : String) (id : Nat) (now : Nat) :
    Option Article :=
  let headTags := match firstTag doc "head" with
    | some h => ExtractProductFeatureTags h []
    | none => []
  let tags0 := headTags
  let parsedContent := ParseHTMLContent doc
  let tags := if parsedContent.Tags.length > 0 ∧ tags0.length = 0 then
    parsedContent.Tags else tags0
  let categoryPath := pageCategoryPath defaultCategory navTexts
  let categoryString := String.intercalate ":" categoryPath
  match resolvePageCategory cs defaultCategory categoryString with
  | none => none
  | some category =>
    if parsedContent.Title = "" ∨ parsedContent.Content = "" then none
    else
      some { ID := id, CategoryID := category.ID,
             Name := parsedContent.Title, Body := parsedContent.Content,
             URL := url, Tags := tags, Author := "",
             Metadata := some { categoryPath := categoryPath,
                                fullCategoryString := categoryString,
                                url := url, metaTags := tags },
             CreatedAt := now, UpdatedAt := now }

/-- A fetched content page as seen by the handler: its parsed document,
the texts matched by the navigation selectors, and its URL. -/
structure FetchedPage where
  doc : Node
  navTexts : List String
  url : String

/-- The sequence of articles persisted while the dispatcher processes a
list of fetched pages: a page whose handler returns without persisting
contributes nothing and the run continues with the remaining pages. -/
def crawlPages (cs : CategoryIndex) (defaultCategory : String) :
    List FetchedPage → List Article
  | [] => []
  | p :: rest =>
    match processPage cs defaultCategory p.doc p.navTexts p.url 0 0 with
    | some a => a :: crawlPages cs defaultCategory rest
    | none => crawlPages cs defaultCategory rest

/-! ## Sitemap (models/sitemap.go, collector.go parseSitemap) -/
/-- `models.URL`: one `url` entry of a sitemap. -/
structure SitemapURL where
  Loc : String
  LastMod : String
  ChangeFreq : String
  Priority : String
deriving Repr, DecidableEq

/-- Whether an XML node is an element with the given name. -/
def isXmlElem (name : String) (n : Node) : Bool := n.isTag name

/-- Character data accumulated by `encoding/xml` for a string field: all
text anywhere inside the element. -/
def xmlText (n : Node) : String := nodeText n

/-- The string value `encoding/xml` leaves in a string-typed field for the
children named `name`: each matching child element overwrites the field,
so the last one wins; no matching child leaves the zero value. -/
def xmlChildText (name : String) (children : List Node) : String :=
  children.foldl
    (fun acc c => if isXmlElem name c then xmlText c else acc) ""

/-- Unmarshal one `url` element into a `models.URL`. -/
def xmlURLOf (children : List Node) : SitemapURL :=
  { Loc := xmlChildText "loc" children,
    LastMod := xmlChildText "lastmod" children,
    ChangeFreq := xmlChildText "changefreq" children,
    Priority := xmlChildText "priority" children }

/-- The contribution of one child of the `urlset` root to the `URLs`
slice: child elements named `url` unmarshal into a `models.URL`; character
data and other elements are ignored. -/
def urlEntryOf (c : Node) : Option SitemapURL :=
  if c.isTag "url" then some (xmlURLOf c.childNodes) else none

/-- Model of the `xml.Unmarshal(body, &sitemap)` step of
`collector.go parseSitemap` against `models.Sitemap`: the root element must
be `urlset` (otherwise unmarshalling fails), and the `URLs` slice collects
every child element named `url`, in document order. -/
def unmarshalSitemap (doc : Node) : Option (List SitemapURL) :=
  match doc with
  | .elem "urlset" _ children => some (children.filterMap urlEntryOf)
  | _ => none

/-! ## Crawl dispatch (collector.go Crawl) -/
/-- The outcome of `Crawl` as a distinguishable value: the sitemap
fetch/parse error that is returned directly, the `ctx.Err()` returned when
the context is cancelled inside the dispatch loop, or the `nil` return of
a completed dispatch. -/
inductive CrawlResult where
  | failed (msg : String)
  | cancelled
  | completed
deriving Repr, DecidableEq

/-- The dispatch loop of `Crawl` from URL index `i` on: before starting
each visit the loop polls `ctx.Done()` (`cancelAt i` says whether the
cancellation signal has fired by the time URL `i` is considered); once the
signal is observed the loop returns immediately, visiting nothing further.
Returns the visited locations in order and whether the loop was cut short
by cancellation. -/
def dispatchFrom (cancelAt : Nat → Bool) : Nat → List String →
    List String × Bool
  | _, [] => ([], false)
  | i, loc :: rest =>
    if cancelAt i then ([], true)
    else
      let r := dispatchFrom cancelAt (i + 1) rest
      (loc :: r.1, r.2)

/-- Model of `collector.go Crawl`: a failed sitemap fetch/parse is returned
as that error; otherwise the sitemap URLs are dispatched in order until
exhausted or until the cancellation signal is observed, in which case
`ctx.Err()` is returned.  The second component lists the URLs actually
handed to `collector.Visit`. -/
def Crawl (sitemapResult : Option (List String)) (cancelAt : Nat → Bool) :
    CrawlResult × List String :=
  match sitemapResult with
  | none => (.failed "failed to parse sitemap XML", [])
  | some locs =>
    let r := dispatchFrom cancelAt 0 locs
    (if r.2 then .cancelled else .completed, r.1)

/-- The number of URLs dispatched before the loop stops, starting the
signal poll at index `start` with `n` URLs remaining: the offset of the
first index at which the signal is observed, or `n` if it never is. -/
def cancelPoint (cancelAt : Nat → Bool) : Nat → Nat → Nat
  | _, 0 => 0
  | start, n + 1 =>
    if cancelAt start then 0 else cancelPoint cancelAt (start + 1) n + 1

/-! ## Storage (internal/storage sqlite.go / postgres.go CreateArticle) -/
/-- Model of `CreateArticle`'s `INSERT ... ON CONFLICT(url) DO UPDATE`
statement over the articles table: with no row for the article's URL the
row is inserted as given; on conflict the existing row keeps its `id`,
`url` and `created_at` and takes the new `category_id`, `name`, `body`,
`tags`, `author` and `metadata`, with `updated_at` set to the statement
time `dbNow` (`CURRENT_TIMESTAMP`). -/
def CreateArticle (dbNow : Nat) (article : Article) (table : List Article) :
    List Article :=
  if table.any (fun row => row.URL = article.URL) then
    table.map (fun row =>
      if row.URL = article.URL then
        { row with CategoryID := article.CategoryID, Name := article.Name,
                   Body := article.Body, Tags := article.Tags,
                   Author := article.Author, Metadata := article.Metadata,
                   UpdatedAt := dbNow }
      else row)
  else table ++ [article]

/-! ## Run-level config update (internal/api/handlers.go runCrawler) -/
/-- The slice of `models.CrawlerConfig` mutated by `runCrawler` (ids and
the untouched target-site fields elided; times as `Nat`). -/
structure ConfigState where
  Status : String
  Errors : List String
  LastRun : Option Nat
  NextRun : Option Nat
  IsFirstRun : Bool
  UpdatedAt : Nat
deriving Repr, DecidableEq

/-- How a crawl run ends: the category-mapping step failed, the crawl
itself returned an error, or everything succeeded. -/
inductive RunOutcome where
  | mapFailure (msg : String)
  | crawlFailure (msg : String)
  | runSuccess
deriving Repr, DecidableEq

/-- Model of the config-record side effect of `handlers.go runCrawler`
(the state the final `UpdateCrawlerConfig` call persists): the status is
first set to `Running`; a mapping failure flips it to `Error` and appends
the error message, returning early; after the crawl, `now` is taken
(`now := time.Now()`), and a crawl error flips the status to `Error` and
appends the message while success sets `Completed`, records
`LastRun := now` and, when the crawl interval parses as a duration
(`interval = some v`), `NextRun := now + v`; both post-crawl paths clear
the first-run flag and stamp `UpdatedAt`. -/
def runCrawlerUpdate (o : RunOutcome) (now : Nat) (interval : Option Nat)
    (config : ConfigState) : ConfigState :=
  let running := { config with Status := "Running" }
  match o with
  | .mapFailure msg =>
    { running with Status := "Error", Errors := running.Errors ++ [msg] }
  | .crawlFailure msg =>
    { running with Status := "Error", Errors := running.Errors ++ [msg],
                   IsFirstRun := false, UpdatedAt := now }
  | .runSuccess =>
    { running with Status := "Completed", LastRun := some now,
                   NextRun := interval.map (fun v => now + v),
                   IsFirstRun := false, UpdatedAt := now }

/-- The error message `runCrawler` appends for a given crawl result:
`err.Error()` of the value returned by `Crawl` (`ctx.Err()` is
`context.Canceled`, whose message is `"context canceled"`); a completed
crawl appends nothing. -/
def crawlErrMsg : CrawlResult → Option String
  | .failed msg => some msg
  | .cancelled => some "context canceled"
  | .completed => none

/-- The config record `runCrawler` leaves behind given the result of the
`Crawl` call. -/
def runAfterCrawl (r : CrawlResult) (now : Nat) (interval : Option Nat)
    (config : ConfigState) : ConfigState :=
  match crawlErrMsg r with
  | some msg => runCrawlerUpdate (.crawlFailure msg) now interval config
  | none => runCrawlerUpdate .runSuccess now interval config

/-- The concrete input of C7:
`<html><head><title>T</title><meta name="keywords" content="a, B ,c"></head><body><article>X</article></body></html>`. -/
def c7Doc : Node :=
  .elem "html" []
    [.elem "head" []
      [.elem "title" [] [.text "T"],
       .elem "meta" [("name", "keywords"), ("content", "a, B ,c")] []],
     .elem "body" []
      [.elem "article" [] [.text "X"]]]

/-- A concrete witness article table context: the root category entry used
by several witnesses. -/
def rootW : Category :=
  { ID := 0, Name := "D", ParentID := none, Description := "Root category" }

/-- A concrete content page with a title and a plain body. -/
def docW : Node :=
  .elem "html" []
    [.elem "head" [] [.elem "title" [] [.text "T"]],
     .elem "body" [] [.text "B"]]

/-- The article `processPage` produces for `docW` against the
root-only index. -/
def articleW : Article :=
  { ID := 1, CategoryID := 0, Name := "T",
    Body := "<html><head></head><body>B</body></html>", URL := "u",
    Tags := [], Author := "",
    Metadata := some { categoryPath := ["D", "X"],
                       fullCategoryString := "D:X", url := "u",
                       metaTags := [] },
    CreatedAt := 2, UpdatedAt := 2 }

/-- A concrete page with body content but no title element. -/
def docNoTitle : Node :=
  .elem "html" []
    [.elem "head" [] [],
     .elem "body" [] [.text "hi"]]

/-- A concrete pre-run config record. -/
def cfg0 : ConfigState :=
  { Status := "Scheduled", Errors := [], LastRun := none, NextRun := none,
    IsFirstRun := true, UpdatedAt := 0 }

/-- The comma-split entries of one `ProductFeatureTags` content value:
trimmed, empty entries dropped, order kept, case untouched. -/
def pftSplitEntries (content : String) : List String :=
  (goSplitComma content).filterMap (fun pftag =>
    let t := goTrim pftag
    if t ≠ "" then some t else none)

/-- The full tag list contributed by the `ProductFeatureTags` meta
elements of a node, in document order. -/
def pftTagsOf (e : Node) : List String :=
  ((findMeta e "ProductFeatureTags").map (fun m =>
    match m.attrOf "content" with
    | some content => pftSplitEntries content
    | none => [])).flatten

/-- A concrete head with a mixed-case `ProductFeatureTags` meta. -/
def c10Head : Node :=
  .elem "head" []
    [.elem "title" [] [.text "T"],
     .elem "meta"
       [("name", "ProductFeatureTags"), ("content", "Alpha, BETA")] []]

/-- A concrete page built around `c10Head`. -/
def c10PftDoc : Node :=
  .elem "html" [] [c10Head, .elem "body" [] [.text "B"]]

/-- A concrete page whose head has a `keywords` meta but no
`ProductFeatureTags` meta. -/
def c10KwDoc : Node :=
  .elem "html" []
    [.elem "head" []
      [.elem "title" [] [.text "T"],
       .elem "meta" [("name", "keywords"), ("content", "kw")] []],
     .elem "body" [] [.text "B"]]

/-- The article `processPage` persists for `c10PftDoc` against the
root-only index. -/
def articlePftW : Article :=
  { ID := 0, CategoryID := 0, Name := "T",
    Body := "<html><head></head><body>B</body></html>", URL := "u",
    Tags := ["Alpha", "BETA"], Author := "",
    Metadata := some { categoryPath := ["D"], fullCategoryString := "D",
                       url := "u", metaTags := ["Alpha", "BETA"] },
    CreatedAt := 0, UpdatedAt := 0 }

/-- The parent texts collected by `MapCategoryStructure`'s ancestor walk:
the trimmed full text of every ancestor that is a non-empty list item,
innermost first. -/
def ancestorLiTexts (anc : List Node) : List String :=
  anc.filterMap (fun p =>
    if isLi p then
      let t := goTrim (nodeText p)
      if t ≠ "" then some t else none
    else none)

/-- The inner list item of the C1 counterexample navigation. -/
def liInnerC1 : Node := .elem "li" [] [.text "Child"]

/-- The nested list of the C1 counterexample navigation. -/
def ulInnerC1 : Node := .elem "ul" [] [liInnerC1]

/-- The outer list item of the C1 counterexample navigation. -/
def liOuterC1 : Node := .elem "li" [] [.text "Parent", ulInnerC1]

/-- The top list of the C1 counterexample navigation. -/
def ulOuterC1 : Node := .elem "ul" [] [liOuterC1]

/-- The C1 counterexample navigation element: an outer item `Parent`
holding a nested item `Child`. -/
def navC1 : Node := .elem "nav" [("class", "sidebarNav")] [ulOuterC1]

/-- The ancestor chain of the inner item inside `navC1`. -/
def ancInnerC1 : List Node := [ulInnerC1, liOuterC1, ulOuterC1, navC1]

/-- First list item of the C6 witness navigation. -/
def liGoodC6 : Node := .elem "li" [] [.text "Good"]

/-- Second list item of the C6 witness navigation; its path is the one
the store refuses. -/
def liBadC6 : Node := .elem "li" [] [.text "Bad"]

/-- The list of the C6 witness navigation. -/
def ulC6 : Node := .elem "ul" [] [liGoodC6, liBadC6]

/-- The C6 witness navigation element with two flat items. -/
def navC6 : Node := .elem "nav" [] [ulC6]

/-- A store that refuses exactly the `D:Bad` category path. -/
def store6 : String → Bool := fun s => s != "D:Bad"

/-- First-written article of the C4 witness. -/
def a1W : Article :=
  { ID := 1, CategoryID := 10, Name := "n1", Body := "b1", URL := "u",
    Tags := ["t"], Author := "au", Metadata := none,
    CreatedAt := 100, UpdatedAt := 100 }

/-- Second-written article of the C4 witness: same URL, different body. -/
def a2W : Article :=
  { ID := 2, CategoryID := 20, Name := "n2", Body := "b2", URL := "u",
    Tags := [], Author := "", Metadata := none,
    CreatedAt := 200, UpdatedAt := 200 }

/-! ## Theorems -/
/-- Auxiliary: `filterMap` with an if-guarded function is the map of the
filtered list. -/
theorem filterMap_guard {α β : Type} (p : α → Bool) (f : α → β) :
    ∀ l : List α,
      l.filterMap (fun c => if p c then some (f c) else none) =
        (l.filter p).map f := by
  intro l
  induction l with
  | nil => rfl
  | cons a t ih =>
    by_cases h : p a <;> simp [List.filterMap_cons, List.filter_cons, h, ih]

/-- C5.  For every well-formed sitemap XML document — a `urlset` root with
any attributes and child list — the parser returns exactly as many
location entries as there are `url` children, in document order: the
result is the in-order image of the `url` children, and its length is
their count. -/
theorem sitemap_preserves_url_entries (attrs : List (String × String))
    (children : List Node) :
    unmarshalSitemap (.elem "urlset" attrs children) =
      some ((children.filter (fun c => c.isTag "url")).map
        (fun c => xmlURLOf c.childNodes)) ∧
    ((children.filter (fun c => c.isTag "url")).map
        (fun c => xmlURLOf c.childNodes)).length =
      children.countP (fun c => c.isTag "url") := by
  constructor
  · have h := filterMap_guard (fun c => c.isTag "url")
      (fun c => xmlURLOf c.childNodes) children
    show some (children.filterMap urlEntryOf) = _
    rw [show children.filterMap urlEntryOf = children.filterMap (fun c =>
      if c.isTag "url" then some (xmlURLOf c.childNodes) else none) from rfl, h]
  · rw [List.length_map, ← List.countP_eq_length_filter]

/-- C7.  `ParseHTMLContent` on the C7 input yields title `T`, tags exactly
`["a", "b", "c"]` (each keyword entry trimmed, lower-cased, empty entries
dropped), and a body that contains `X`, is free of script/style/comment
content (none survives `cleanHTML`'s removal pass, as the computed value
shows) and has all white-space runs collapsed (the body is a fixed point
of the collapse). -/
theorem parse_html_content_c7 :
    ParseHTMLContent c7Doc =
      { Title := "T",
        Content := "<html><head></head><body>X</body></html>",
        Tags := ["a", "b", "c"], Author := "", CategoryID := "" } ∧
    "X".data <:+: "<html><head></head><body>X</body></html>".data ∧
    collapseWs "<html><head></head><body>X</body></html>" =
      "<html><head></head><body>X</body></html>" := by
  refine ⟨by decide, by decide, by decide⟩

/-- C4.  Upserting two articles with the same URL but different bodies
into a table that does not yet contain that URL leaves exactly one stored
article for it: the row keeps the first write's id and creation timestamp
and takes the second write's category, title, body, tags, author and
metadata, with the update timestamp from the second write. -/
theorem upsert_article_by_url (t1 t2 : Nat) (a1 a2 : Article)
    (tbl : List Article)
    (hfresh : ∀ r ∈ tbl, r.URL ≠ a1.URL)
    (hurl : a2.URL = a1.URL) (hbody : a2.Body ≠ a1.Body) :
    (CreateArticle t2 a2 (CreateArticle t1 a1 tbl)).filter
        (fun r => r.URL = a1.URL) =
      [{ a1 with CategoryID := a2.CategoryID, Name := a2.Name,
                 Body := a2.Body, Tags := a2.Tags, Author := a2.Author,
                 Metadata := a2.Metadata, UpdatedAt := t2 }] ∧
    ((CreateArticle t2 a2 (CreateArticle t1 a1 tbl)).filter
        (fun r => r.URL = a1.URL)).length = 1 := by
  have hany1 : tbl.any (fun row => row.URL = a1.URL) = false := by
    rw [List.any_eq_false]
    intro r hr
    simpa using hfresh r hr
  have h1 : CreateArticle t1 a1 tbl = tbl ++ [a1] := by
    simp [CreateArticle, hany1]
  have hany2 : (tbl ++ [a1]).any (fun row => row.URL = a2.URL) = true := by
    rw [List.any_eq_true]
    exact ⟨a1, by simp, by simp [hurl]⟩
  have hmain : (CreateArticle t2 a2 (CreateArticle t1 a1 tbl)).filter
      (fun r => r.URL = a1.URL) =
      [{ a1 with CategoryID := a2.CategoryID, Name := a2.Name,
                 Body := a2.Body, Tags := a2.Tags, Author := a2.Author,
                 Metadata := a2.Metadata, UpdatedAt := t2 }] := by
    rw [h1]
    rw [show CreateArticle t2 a2 (tbl ++ [a1]) =
      (tbl ++ [a1]).map (fun row =>
        if row.URL = a2.URL then
          { row with CategoryID := a2.CategoryID, Name := a2.Name,
                     Body := a2.Body, Tags := a2.Tags, Author := a2.Author,
                     Metadata := a2.Metadata, UpdatedAt := t2 }
        else row) from by simp [CreateArticle, hany2]]
    rw [List.map_append, List.filter_append]
    have h3 : (tbl.map (fun row =>
        if row.URL = a2.URL then
          { row with CategoryID := a2.CategoryID, Name := a2.Name,
                     Body := a2.Body, Tags := a2.Tags, Author := a2.Author,
                     Metadata := a2.Metadata, UpdatedAt := t2 }
        else row)).filter (fun r => r.URL = a1.URL) = [] := by
      rw [List.filter_eq_nil_iff]
      intro r2 hr2
      obtain ⟨r, hr, hrfl⟩ := List.mem_map.mp hr2
      have hne : r.URL ≠ a1.URL := hfresh r hr
      rw [if_neg (by rw [hurl]; exact hne)] at hrfl
      subst hrfl
      simpa using hne
    rw [h3]
    have h4 : (if a1.URL = a2.URL then
        { a1 with CategoryID := a2.CategoryID, Name := a2.Name,
                  Body := a2.Body, Tags := a2.Tags, Author := a2.Author,
                  Metadata := a2.Metadata, UpdatedAt := t2 }
      else a1) =
        { a1 with CategoryID := a2.CategoryID, Name := a2.Name,
                  Body := a2.Body, Tags := a2.Tags, Author := a2.Author,
                  Metadata := a2.Metadata, UpdatedAt := t2 } :=
      if_pos hurl.symm
    simp [h4]
  exact ⟨hmain, by rw [hmain]; rfl⟩

/-- C3.  When a page's derived category path is not in the index, the
handler resolves the page to the default-category entry, and any article
it persists carries that entry's id; when even the default entry is
absent, the handler persists nothing and the remaining pages are processed
unchanged. -/
theorem category_fallback_to_root (cs : CategoryIndex) (d : String)
    (doc : Node) (navTexts : List String) (url : String) (id now : Nat)
    (hpath : GetCategory cs
      (String.intercalate ":" (pageCategoryPath d navTexts)) = none) :
    (∀ root, GetCategory cs d = some root →
      resolvePageCategory cs d
        (String.intercalate ":" (pageCategoryPath d navTexts)) = some root ∧
      ∀ a, processPage cs d doc navTexts url id now = some a →
        a.CategoryID = root.ID) ∧
    (GetCategory cs d = none →
      (∀ i n, processPage cs d doc navTexts url i n = none) ∧
      ∀ rest, crawlPages cs d
          ({ doc := doc, navTexts := navTexts, url := url } :: rest) =
        crawlPages cs d rest) := by
  have hres : resolvePageCategory cs d
      (String.intercalate ":" (pageCategoryPath d navTexts)) =
      GetCategory cs d := by
    unfold resolvePageCategory
    rw [hpath]
  constructor
  · intro root hroot
    refine ⟨by rw [hres, hroot], ?_⟩
    intro a ha
    simp only [processPage] at ha
    rw [hres, hroot] at ha
    dsimp only at ha
    by_cases hc : (ParseHTMLContent doc).Title = "" ∨
        (ParseHTMLContent doc).Content = ""
    · rw [if_pos hc] at ha
      cases ha
    · rw [if_neg hc] at ha
      cases ha
      rfl
  · intro hnone
    have hn : ∀ i n, processPage cs d doc navTexts url i n = none := by
      intro i n
      simp only [processPage]
      rw [hres, hnone]
    refine ⟨hn, ?_⟩
    intro rest
    show (match processPage cs d doc navTexts url 0 0 with
      | some a => a :: crawlPages cs d rest
      | none => crawlPages cs d rest) = crawlPages cs d rest
    rw [hn 0 0]

/-- Witness for C3: against the root-only index the `docW` page (derived
path `D:X`, absent from the index) is filed under the root's id, and
against an empty index it is skipped. -/
theorem category_fallback_to_root_witness :
    articleW.CategoryID = rootW.ID ∧
    processPage [] "D" docW ["X"] "u" 1 2 = none := by
  constructor
  · exact ((category_fallback_to_root [("D", rootW)] "D" docW ["X"] "u" 1 2
      rfl).1 rootW rfl).2 articleW rfl
  · exact (((category_fallback_to_root [] "D" docW ["X"] "u" 1 2
      rfl).2 rfl).1 1 2)

/-- C8.  A page whose parsed content lacks a title or lacks body content
after sanitization is never persisted: the handler yields no article and
the remaining pages are processed unchanged. -/
theorem incomplete_page_never_persisted (cs : CategoryIndex) (d : String)
    (doc : Node) (navTexts : List String) (url : String) (id now : Nat)
    (h : (ParseHTMLContent doc).Title = "" ∨
      (ParseHTMLContent doc).Content = "") :
    processPage cs d doc navTexts url id now = none ∧
    ∀ rest, crawlPages cs d
        ({ doc := doc, navTexts := navTexts, url := url } :: rest) =
      crawlPages cs d rest := by
  have hn : ∀ i n, processPage cs d doc navTexts url i n = none := by
    intro i n
    simp only [processPage]
    cases hres : resolvePageCategory cs d
        (String.intercalate ":" (pageCategoryPath d navTexts)) with
    | none => rfl
    | some cat =>
      dsimp only
      rw [if_pos h]
  refine ⟨hn id now, ?_⟩
  intro rest
  show (match processPage cs d doc navTexts url 0 0 with
    | some a => a :: crawlPages cs d rest
    | none => crawlPages cs d rest) = crawlPages cs d rest
  rw [hn 0 0]

/-- Witness for C8: the title-less page is skipped against the root-only
index and leaves the rest of the run unchanged. -/
theorem incomplete_page_never_persisted_witness :
    processPage [("D", rootW)] "D" docNoTitle [] "u" 0 0 = none ∧
    crawlPages [("D", rootW)] "D"
        [{ doc := docNoTitle, navTexts := [], url := "u" }] =
      crawlPages [("D", rootW)] "D" [] := by
  obtain ⟨h1, h2⟩ := incomplete_page_never_persisted [("D", rootW)] "D"
    docNoTitle [] "u" 0 0 (Or.inl rfl)
  exact ⟨h1, h2 []⟩

/-- Counterexample for C2 as stated: a run that finishes at time `5` on
the run-level failure path leaves the record in `Error` status with the
message appended, but `lastRun` is NOT set to the run's end time (it stays
unset) — the claim's unconditional `lastRun` clause fails on the `Error`
outcome. -/
theorem run_update_error_no_lastrun :
    (runCrawlerUpdate (.crawlFailure "boom") 5 (some 3) cfg0).Status =
      "Error" ∧
    (runCrawlerUpdate (.crawlFailure "boom") 5 (some 3) cfg0).Errors =
      ["boom"] ∧
    (runCrawlerUpdate (.crawlFailure "boom") 5 (some 3) cfg0).LastRun ≠
      some 5 := by
  refine ⟨rfl, rfl, by decide⟩

/-- C2 (amended).  After a crawl run the config record has status
`Completed` on success and `Error` on either run-level failure path, with
the triggering message appended to the error list; `lastRun` is set to the
run's end time and — when the crawl interval parses as a valid duration —
`nextRun` equals `lastRun + interval` on the success path only: the
failure paths leave `lastRun` and `nextRun` unchanged. -/
theorem run_update_semantics (o : RunOutcome) (now : Nat)
    (interval : Option Nat) (cfg : ConfigState) :
    (o = .runSuccess →
      (runCrawlerUpdate o now interval cfg).Status = "Completed" ∧
      (runCrawlerUpdate o now interval cfg).LastRun = some now ∧
      ∀ v, interval = some v →
        (runCrawlerUpdate o now interval cfg).NextRun = some (now + v)) ∧
    (∀ msg, o = .mapFailure msg ∨ o = .crawlFailure msg →
      (runCrawlerUpdate o now interval cfg).Status = "Error" ∧
      (runCrawlerUpdate o now interval cfg).Errors = cfg.Errors ++ [msg] ∧
      (runCrawlerUpdate o now interval cfg).LastRun = cfg.LastRun ∧
      (runCrawlerUpdate o now interval cfg).NextRun = cfg.NextRun) := by
  constructor
  · rintro rfl
    refine ⟨rfl, rfl, ?_⟩
    rintro v rfl
    rfl
  · rintro msg (rfl | rfl) <;> exact ⟨rfl, rfl, rfl, rfl⟩

/-- Witness for the amended C2 on concrete runs. -/
theorem run_update_semantics_witness :
    (runCrawlerUpdate .runSuccess 5 (some 3) cfg0).Status = "Completed" ∧
    (runCrawlerUpdate .runSuccess 5 (some 3) cfg0).LastRun = some 5 ∧
    (runCrawlerUpdate .runSuccess 5 (some 3) cfg0).NextRun = some 8 ∧
    (runCrawlerUpdate (.mapFailure "m") 5 (some 3) cfg0).Status = "Error" := by
  obtain ⟨h1, h2, h3⟩ :=
    (run_update_semantics .runSuccess 5 (some 3) cfg0).1 rfl
  exact ⟨h1, h2, h3 3 rfl,
    ((run_update_semantics (.mapFailure "m") 5 (some 3) cfg0).2 "m"
      (Or.inl rfl)).1⟩

/-- Auxiliary: the dispatch loop visits exactly the URL prefix before the
first index at which the cancellation signal is observed, and reports
cancellation exactly when that happens before the list is exhausted. -/
theorem dispatchFrom_take (cancelAt : Nat → Bool) :
    ∀ (locs : List String) (s : Nat),
      (dispatchFrom cancelAt s locs).1 =
        locs.take (cancelPoint cancelAt s locs.length) ∧
      ((dispatchFrom cancelAt s locs).2 = true ↔
        cancelPoint cancelAt s locs.length < locs.length) := by
  intro locs
  induction locs with
  | nil =>
    intro s
    exact ⟨rfl, by simp [dispatchFrom, cancelPoint]⟩
  | cons a t ih =>
    intro s
    by_cases h : cancelAt s
    · refine ⟨?_, ?_⟩ <;> simp [dispatchFrom, cancelPoint, h]
    · obtain ⟨ih1, ih2⟩ := ih (s + 1)
      refine ⟨?_, ?_⟩
      · simp [dispatchFrom, cancelPoint, h, ih1]
      · simp [dispatchFrom, cancelPoint, h, ih2, Nat.succ_lt_succ_iff]

/-- Counterexample for C9 as stated: at the job level a cancelled run is
not distinct from an error outcome — `runCrawler` records `ctx.Err()` like
any other crawl error, so both a cancelled run and a sitemap-failure run
leave the config record in the same `Error` status (with the cancellation
message in the error list). -/
theorem cancelled_outcome_recorded_as_error :
    (runAfterCrawl .cancelled 7 none cfg0).Status = "Error" ∧
    (runAfterCrawl .cancelled 7 none cfg0).Errors = ["context canceled"] ∧
    (runAfterCrawl .cancelled 7 none cfg0).Status =
      (runAfterCrawl (.failed "failed to parse sitemap XML") 7 none
        cfg0).Status := by
  refine ⟨rfl, rfl, rfl⟩

/-- C9 (amended).  Once the cancellation signal fires during dispatch, the
dispatcher starts no further sitemap-URL visits: the visited URLs are
exactly the prefix before the first index at which the signal is observed,
and the crawl then returns the context's cancellation error, a value
distinct from the sitemap-failure error; the job-level handling, however,
records a cancelled run as an `Error` outcome (appending
`context canceled`), not as a distinct cancelled outcome. -/
theorem crawl_cancellation_semantics (cancelAt : Nat → Bool)
    (locs : List String) (now : Nat) (interval : Option Nat)
    (cfg : ConfigState) :
    (Crawl (some locs) cancelAt).2 =
      locs.take (cancelPoint cancelAt 0 locs.length) ∧
    ((Crawl (some locs) cancelAt).1 = .cancelled ↔
      cancelPoint cancelAt 0 locs.length < locs.length) ∧
    (∀ msg, CrawlResult.cancelled = CrawlResult.failed msg → False) ∧
    (runAfterCrawl .cancelled now interval cfg).Status = "Error" ∧
    (runAfterCrawl .cancelled now interval cfg).Errors =
      cfg.Errors ++ ["context canceled"] := by
  obtain ⟨h1, h2⟩ := dispatchFrom_take cancelAt locs 0
  refine ⟨?_, ?_, ?_, rfl, rfl⟩
  · show (dispatchFrom cancelAt 0 locs).1 = _
    exact h1
  · show (if (dispatchFrom cancelAt 0 locs).2 then CrawlResult.cancelled
      else CrawlResult.completed) = .cancelled ↔ _
    rw [← h2]
    cases hb : (dispatchFrom cancelAt 0 locs).2 <;> simp [hb]
  · intro msg hmsg
    cases hmsg

/-- Witness for the amended C9: with three sitemap URLs and a signal that
fires from index 1 on, only the first URL is visited, the crawl reports
cancellation, and the job record still ends in `Error`. -/
theorem crawl_cancellation_semantics_witness :
    (Crawl (some ["u0", "u1", "u2"]) (fun i => decide (1 ≤ i))).2 =
      ["u0"] ∧
    (Crawl (some ["u0", "u1", "u2"]) (fun i => decide (1 ≤ i))).1 =
      .cancelled ∧
    (runAfterCrawl .cancelled 7 (some 3) cfg0).Status = "Error" := by
  obtain ⟨h1, h2, h3, h4, h5⟩ := crawl_cancellation_semantics
    (fun i => decide (1 ≤ i)) ["u0", "u1", "u2"] 7 (some 3) cfg0
  refine ⟨?_, ?_, h4⟩
  · rw [h1]
    decide
  · exact h2.mpr (by decide)

/-- Auxiliary: the entry-appending fold equals appending the filtered
split entries. -/
theorem foldl_append_entries (l : List String) :
    ∀ acc : List String,
      l.foldl (fun acc2 pftag =>
        let t := goTrim pftag
        if t ≠ "" then acc2 ++ [t] else acc2) acc =
      acc ++ l.filterMap (fun pftag =>
        let t := goTrim pftag
        if t ≠ "" then some t else none) := by
  induction l with
  | nil =>
    intro acc
    simp
  | cons a t ih =>
    intro acc
    rw [List.foldl_cons, List.filterMap_cons]
    dsimp only
    by_cases h : goTrim a = ""
    · rw [if_neg (fun hn => hn h), if_neg (fun hn => hn h)]
      exact ih acc
    · rw [if_pos h, if_pos h, ih (acc ++ [goTrim a]), List.append_assoc]
      rfl

/-- Auxiliary: `ExtractProductFeatureTags` appends exactly the
document-order split entries to the incoming slice. -/
theorem extract_pft_eq (e : Node) (tags : List String) :
    ExtractProductFeatureTags e tags = tags ++ pftTagsOf e := by
  unfold ExtractProductFeatureTags pftTagsOf
  generalize findMeta e "ProductFeatureTags" = ms
  induction ms generalizing tags with
  | nil => simp
  | cons m rest ih =>
    rw [List.foldl_cons, List.map_cons, List.flatten_cons]
    cases hc : m.attrOf "content" with
    | none =>
      dsimp only
      rw [List.nil_append]
      exact ih tags
    | some content =>
      dsimp only
      rw [foldl_append_entries, ih, List.append_assoc]
      rfl

/-- C10 (amended).  `ExtractProductFeatureTags` appends to the incoming
slice each comma-separated entry of every `ProductFeatureTags` meta tag's
content, trimmed, empty entries dropped, in document order and with the
original character case kept — unlike `ParseHTMLContent`, which
lower-cases the same entries; and whenever the head handler extracts a
non-empty tag list, that list is what the persisted article stores. -/
theorem extract_product_feature_tags_semantics :
    (∀ e tags, ExtractProductFeatureTags e tags = tags ++ pftTagsOf e) ∧
    (ExtractProductFeatureTags c10Head [] = ["Alpha", "BETA"] ∧
      (ParseHTMLContent c10PftDoc).Tags = ["alpha", "beta"]) ∧
    (∀ cs d doc navTexts url id now hd a,
      firstTag doc "head" = some hd →
      ExtractProductFeatureTags hd [] ≠ [] →
      processPage cs d doc navTexts url id now = some a →
      a.Tags = ExtractProductFeatureTags hd []) := by
  refine ⟨extract_pft_eq, ⟨by decide, by decide⟩, ?_⟩
  intro cs d doc navTexts url id now hd a hhead hne ha
  have hc : ¬ ((ParseHTMLContent doc).Tags.length > 0 ∧
      (ExtractProductFeatureTags hd []).length = 0) := by
    rintro ⟨-, h0⟩
    exact hne (List.length_eq_zero.mp h0)
  simp only [processPage] at ha
  rw [hhead] at ha
  dsimp only at ha
  cases hres : resolvePageCategory cs d
      (String.intercalate ":" (pageCategoryPath d navTexts)) with
  | none =>
    rw [hres] at ha
    cases ha
  | some cat =>
    rw [hres] at ha
    dsimp only at ha
    by_cases ht : (ParseHTMLContent doc).Title = "" ∨
        (ParseHTMLContent doc).Content = ""
    · rw [if_pos ht] at ha
      cases ha
    · rw [if_neg ht] at ha
      cases ha
      show (if _ ∧ _ then (ParseHTMLContent doc).Tags
        else ExtractProductFeatureTags hd []) = _
      rw [if_neg hc]

/-- Counterexample for C10 as stated: on a page whose head handler runs
but extracts no `ProductFeatureTags` (and whose head carries a `keywords`
meta), the persisted article stores the parsed lower-cased keyword tags,
not the (empty) head-extracted tag list — the final clause of the claim
fails when the head handler extracts nothing. -/
theorem keyword_tags_override_empty_head_tags :
    (firstTag c10KwDoc "head").isSome ∧
    ((firstTag c10KwDoc "head").map
      (fun hd => ExtractProductFeatureTags hd [])) = some [] ∧
    ((processPage [("D", rootW)] "D" c10KwDoc [] "u" 0 0).map
      (fun a => a.Tags)) = some ["kw"] := by
  refine ⟨rfl, rfl, rfl⟩

/-- Witness for the amended C10 on the concrete mixed-case page. -/
theorem extract_product_feature_tags_semantics_witness :
    ExtractProductFeatureTags c10Head ["x"] = ["x"] ++ pftTagsOf c10Head ∧
    articlePftW.Tags = ExtractProductFeatureTags c10Head [] := by
  constructor
  · exact extract_product_feature_tags_semantics.1 c10Head ["x"]
  · exact extract_product_feature_tags_semantics.2.2 [("D", rootW)] "D"
      c10PftDoc [] "u" 0 0 c10Head articlePftW rfl (by decide) rfl

/-- Auxiliary: the prepending ancestor fold reverses the collected parent
texts in front of the initial segment. -/
theorem foldl_prepend_parents (l : List Node) :
    ∀ init : List String,
      l.foldl (fun pathParts parent =>
        if isLi parent then
          let parentText := goTrim (nodeText parent)
          if parentText ≠ "" then parentText :: pathParts else pathParts
        else pathParts) init =
      (ancestorLiTexts l).reverse ++ init := by
  induction l with
  | nil =>
    intro init
    simp [ancestorLiTexts]
  | cons p rest ih =>
    intro init
    unfold ancestorLiTexts
    rw [List.foldl_cons, List.filterMap_cons]
    dsimp only
    by_cases hp : isLi p
    · rw [if_pos hp, if_pos hp]
      by_cases ht : goTrim (nodeText p) = ""
      · rw [if_neg (fun hn => hn ht), if_neg (fun hn => hn ht)]
        exact ih init
      · rw [if_pos ht, if_pos ht, ih (goTrim (nodeText p) :: init),
          List.reverse_cons, List.append_assoc]
        rfl
    · rw [if_neg hp, if_neg hp]
      exact ih init

/-- Auxiliary: the category path built for a list item is the parent
texts from outermost to innermost, then the default category, then the
item's own text. -/
theorem buildPathParts_eq (d : String) (anc : List Node) (text : String) :
    buildPathParts d anc text =
      (ancestorLiTexts anc).reverse ++ d :: [text] := by
  unfold buildPathParts
  rw [foldl_prepend_parents anc [d], List.append_assoc]
  rfl

/-- Auxiliary: a freshly registered path is present. -/
theorem getCategory_add_self (cs : CategoryIndex) (p : String)
    (c : Category) : GetCategory (AddCategory cs p c) p = some c := by
  unfold GetCategory AddCategory
  rw [List.find?_cons_of_pos _ (by simp)]
  rfl

/-- Auxiliary: registering another path preserves presence. -/
theorem getCategory_add_mono (cs : CategoryIndex) (p q : String)
    (c : Category) (h : (GetCategory cs p).isSome) :
    (GetCategory (AddCategory cs q c) p).isSome := by
  unfold GetCategory at h
  unfold GetCategory AddCategory
  by_cases hqp : q = p
  · subst hqp
    rw [List.find?_cons_of_pos _ (by simp)]
    rfl
  · rw [List.find?_cons_of_neg _ (by simpa using hqp)]
    exact h

/-- Auxiliary: registering a different path preserves absence. -/
theorem getCategory_add_none (cs : CategoryIndex) (p q : String)
    (c : Category) (hq : q ≠ p) (h : GetCategory cs p = none) :
    GetCategory (AddCategory cs q c) p = none := by
  unfold GetCategory at h
  unfold GetCategory AddCategory
  rw [List.find?_cons_of_neg _ (by simpa using hq)]
  exact h

/-- Auxiliary: one mapping step preserves presence of any path. -/
theorem mapStep_mono (store : String → Bool) (d : String) (rid : Nat)
    (st : MapState) (item : List Node × Node) (p : String)
    (h : (GetCategory st.cs p).isSome) :
    (GetCategory (mapStep store d rid st item).cs p).isSome := by
  simp only [mapStep]
  by_cases ht : goTrim (nodeText item.2) = ""
  · rw [if_pos ht]
    exact h
  · rw [if_neg ht]
    by_cases hs : store (String.intercalate ":"
        (buildPathParts d item.1 (goTrim (nodeText item.2)))) = true
    · rw [if_pos hs]
      exact getCategory_add_mono _ _ _ _ h
    · rw [if_neg hs]
      exact h

/-- Auxiliary: a path whose persistence the store refuses is never
registered by a mapping step. -/
theorem mapStep_none (store : String → Bool) (d : String) (rid : Nat)
    (st : MapState) (item : List Node × Node) (p : String)
    (hsp : store p = false) (h : GetCategory st.cs p = none) :
    GetCategory (mapStep store d rid st item).cs p = none := by
  simp only [mapStep]
  by_cases ht : goTrim (nodeText item.2) = ""
  · rw [if_pos ht]
    exact h
  · rw [if_neg ht]
    by_cases hs : store (String.intercalate ":"
        (buildPathParts d item.1 (goTrim (nodeText item.2)))) = true
    · rw [if_pos hs]
      refine getCategory_add_none _ _ _ _ ?_ h
      intro he
      rw [he, hsp] at hs
      cases hs
    · rw [if_neg hs]
      exact h

/-- Auxiliary: the whole mapping fold preserves presence. -/
theorem foldl_mapStep_mono (store : String → Bool) (d : String) (rid : Nat)
    (items : List (List Node × Node)) :
    ∀ (st : MapState) (p : String), (GetCategory st.cs p).isSome →
      (GetCategory ((items.foldl (mapStep store d rid) st).cs) p).isSome := by
  induction items with
  | nil => intro st p h; exact h
  | cons item rest ih =>
    intro st p h
    rw [List.foldl_cons]
    exact ih _ p (mapStep_mono store d rid st item p h)

/-- Auxiliary: the whole mapping fold never registers a path the store
refuses. -/
theorem foldl_mapStep_none (store : String → Bool) (d : String) (rid : Nat)
    (items : List (List Node × Node)) (p : String) (hsp : store p = false) :
    ∀ st : MapState, GetCategory st.cs p = none →
      GetCategory ((items.foldl (mapStep store d rid) st).cs) p = none := by
  induction items with
  | nil => intro st h; exact h
  | cons item rest ih =>
    intro st h
    rw [List.foldl_cons]
    exact ih _ (mapStep_none store d rid st item p hsp h)

/-- Auxiliary: an item with non-empty text whose persistence succeeds is
registered under its built path by the mapping fold. -/
theorem foldl_mapStep_registers (store : String → Bool) (d : String)
    (rid : Nat) (items : List (List Node × Node)) (anc : List Node)
    (item : Node) (hmem : (anc, item) ∈ items)
    (htext : goTrim (nodeText item) ≠ "")
    (hstore : store (String.intercalate ":"
      (buildPathParts d anc (goTrim (nodeText item)))) = true) :
    ∀ st : MapState,
      (GetCategory ((items.foldl (mapStep store d rid) st).cs)
        (String.intercalate ":"
          (buildPathParts d anc (goTrim (nodeText item))))).isSome := by
  obtain ⟨pre, post, rfl⟩ := List.append_of_mem hmem
  intro st
  rw [List.foldl_append, List.foldl_cons]
  apply foldl_mapStep_mono
  simp only [mapStep]
  rw [if_neg htext, if_pos hstore, getCategory_add_self]
  rfl

/-- C1 (amended).  Every navigable list item with non-empty trimmed text
whose persistence the store accepts is registered in the index under the
colon-joined path consisting of the trimmed full texts of its ancestor
list items ordered from outermost to innermost, then the configured
default category, then the item's own text — the default category sits
between the ancestors and the leaf, not in front of the ancestors. -/
theorem map_category_registers_item (store : String → Bool) (d : String)
    (nav : Node) (anc : List Node) (item : Node)
    (hmem : (anc, item) ∈ liItems nav) (hroot : store d = true)
    (htext : goTrim (nodeText item) ≠ "")
    (hstore : store (String.intercalate ":"
      ((ancestorLiTexts anc).reverse ++ d ::
        [goTrim (nodeText item)])) = true) :
    ∃ m, MapCategoryStructure store d nav = some m ∧
      (GetCategory m (String.intercalate ":"
        ((ancestorLiTexts anc).reverse ++ d ::
          [goTrim (nodeText item)]))).isSome := by
  refine ⟨((liItems nav).foldl (mapStep store d 0)
      { cs := AddCategory [] d
          { ID := 0, Name := d, ParentID := none,
            Description := "Root category" },
        nextId := 1 }).cs,
    by simp [MapCategoryStructure, hroot], ?_⟩
  rw [← buildPathParts_eq]
  rw [← buildPathParts_eq] at hstore
  exact foldl_mapStep_registers store d 0 (liItems nav) anc item hmem htext
    hstore _

/-- Counterexample for C1 as stated: for the nested `Child` item of
`navC1`, no path with the default category in front is registered — in
particular neither `D:Parent:Child` nor `D:ParentChild:Child` is a key of
the produced index — while `ParentChild:D:Child` (the ancestor's full
trimmed text first, then the default category, then the leaf text) is. -/
theorem map_category_path_order_counterexample :
    ((MapCategoryStructure (fun _ => true) "D" navC1).map (fun m =>
      ((GetCategory m "D:Parent:Child").isSome,
       (GetCategory m "D:ParentChild:Child").isSome,
       (GetCategory m "ParentChild:D:Child").isSome,
       (GetCategory m "D:ParentChild").isSome))) =
      some (false, false, true, true) := by
  decide

/-- Witness for the amended C1: the inner item of `navC1` is registered
under `ParentChild:D:Child`. -/
theorem map_category_registers_item_witness :
    ((MapCategoryStructure (fun _ => true) "D" navC1).map (fun m =>
      (GetCategory m "ParentChild:D:Child").isSome)) = some true := by
  obtain ⟨m, hm, hreg⟩ := map_category_registers_item (fun _ => true) "D"
    navC1 ancInnerC1 liInnerC1
    (by rw [show liItems navC1 =
        [([ulOuterC1, navC1], liOuterC1), (ancInnerC1, liInnerC1)] from rfl]
        exact List.mem_cons_of_mem _ (List.mem_cons_self _ _))
    rfl (by decide) rfl
  rw [hm]
  rw [show String.intercalate ":" ((ancestorLiTexts ancInnerC1).reverse ++
    "D" :: [goTrim (nodeText liInnerC1)]) = "ParentChild:D:Child" from by
      decide] at hreg
  simp [hreg]

/-- C6.  A store failure on the root category aborts the mapping with an
error and no index, while a store failure on an individually discovered
category path merely skips that node: it is absent from the index, every
other successfully persisted item is still registered, and the root entry
is present. -/
theorem map_category_failure_semantics (store : String → Bool) (d : String)
    (nav : Node) (p : String) (hnp : p ≠ d) (hfail : store p = false) :
    (store d = false → MapCategoryStructure store d nav = none) ∧
    (store d = true →
      ∃ m, MapCategoryStructure store d nav = some m ∧
        (GetCategory m d).isSome ∧
        GetCategory m p = none ∧
        ∀ anc item, (anc, item) ∈ liItems nav →
          goTrim (nodeText item) ≠ "" →
          store (String.intercalate ":"
            (buildPathParts d anc (goTrim (nodeText item)))) = true →
          (GetCategory m (String.intercalate ":"
            (buildPathParts d anc (goTrim (nodeText item))))).isSome) := by
  constructor
  · intro h
    simp [MapCategoryStructure, h]
  · intro hroot
    refine ⟨((liItems nav).foldl (mapStep store d 0)
        { cs := AddCategory [] d
            { ID := 0, Name := d, ParentID := none,
              Description := "Root category" },
          nextId := 1 }).cs,
      by simp [MapCategoryStructure, hroot], ?_, ?_, ?_⟩
    · apply foldl_mapStep_mono
      rw [getCategory_add_self]
      rfl
    · apply foldl_mapStep_none store d 0 (liItems nav) p hfail
      apply getCategory_add_none _ _ _ _ (fun he => hnp he.symm)
      rfl
    · intro anc item hmem htext hstore
      exact foldl_mapStep_registers store d 0 (liItems nav) anc item hmem
        htext hstore _

/-- Witness for C6: with `store6`, mapping `navC6` keeps the root and the
`D:Good` item but leaves `D:Bad` unregistered. -/
theorem map_category_failure_semantics_witness :
    ((MapCategoryStructure store6 "D" navC6).map (fun m =>
      ((GetCategory m "D").isSome, GetCategory m "D:Bad",
       (GetCategory m "D:Good").isSome))) = some (true, none, true) := by
  obtain ⟨m, hm, hroot, hnone, hall⟩ :=
    (map_category_failure_semantics store6 "D" navC6 "D:Bad"
      (by decide) rfl).2 rfl
  have hgood := hall [ulC6, navC6] liGoodC6
    (by rw [show liItems navC6 =
        [([ulC6, navC6], liGoodC6), ([ulC6, navC6], liBadC6)] from rfl]
        exact List.mem_cons_self _ _)
    (by decide) rfl
  rw [show String.intercalate ":" (buildPathParts "D" [ulC6, navC6]
    (goTrim (nodeText liGoodC6))) = "D:Good" from by decide] at hgood
  rw [hm]
  simp [hroot, hnone, hgood]

/-- Witness for C4 on concrete articles written at times 3 and 7. -/
theorem upsert_article_by_url_witness :
    (CreateArticle 7 a2W (CreateArticle 3 a1W [])).filter
        (fun r => r.URL = a1W.URL) =
      [{ a1W with CategoryID := a2W.CategoryID, Name := a2W.Name,
                  Body := a2W.Body, Tags := a2W.Tags, Author := a2W.Author,
                  Metadata := a2W.Metadata, UpdatedAt := 7 }] ∧
    ((CreateArticle 7 a2W (CreateArticle 3 a1W [])).filter
        (fun r => r.URL = a1W.URL)).length = 1 :=
  upsert_article_by_url 3 7 a1W a2W [] (by simp) rfl (by decide)
